import Mathlib

/-!
Verification of the Lorenz attractor visualizer core (lorenz-opengl).

The embedding models the two core components:
* `LorenzSolver` (include/lorenz_solver.h): RK4 integration of the Lorenz
  vector field and the trajectory buffer.
* `Camera` (src/camera.cpp, include/camera.h): the orbit camera with
  rotate / zoom / pan / reset.
plus the per-frame simulation update of the render loop (src/main.cpp).

C++ `float` scalars are idealized as exact rationals (ℚ); the claims under
study concern the dataflow, field updates, clamping/wrapping logic and
buffer shape, none of which depend on rounding.  The transcendental
primitives used by the camera (`cos`, `sin`, `sqrt` and the constant pi,
which C++ itself only approximates in `float`) are abstracted as an explicit
parameter record `RealFuns`, so every definition stays computable and the
camera theorems hold for every choice of those primitives.
-/

/-- Rational 3-component vector mirroring `glm::vec3`. -/
@[ext]
structure Vec3 where
  x : ℚ
  y : ℚ
  z : ℚ
deriving DecidableEq, Repr

instance : Add Vec3 := ⟨fun a b => ⟨a.x + b.x, a.y + b.y, a.z + b.z⟩⟩

instance : Sub Vec3 := ⟨fun a b => ⟨a.x - b.x, a.y - b.y, a.z - b.z⟩⟩

/-- Scalar-times-vector, mirroring `float * glm::vec3`. -/
instance : HMul ℚ Vec3 Vec3 := ⟨fun a v => ⟨a * v.x, a * v.y, a * v.z⟩⟩

@[simp]
theorem Vec3.add_x (a b : Vec3) : (a + b).x = a.x + b.x := rfl

@[simp]
theorem Vec3.add_y (a b : Vec3) : (a + b).y = a.y + b.y := rfl

@[simp]
theorem Vec3.add_z (a b : Vec3) : (a + b).z = a.z + b.z := rfl

@[simp]
theorem Vec3.sub_x (a b : Vec3) : (a - b).x = a.x - b.x := rfl

@[simp]
theorem Vec3.sub_y (a b : Vec3) : (a - b).y = a.y - b.y := rfl

@[simp]
theorem Vec3.sub_z (a b : Vec3) : (a - b).z = a.z - b.z := rfl

@[simp]
theorem Vec3.smul_x (a : ℚ) (v : Vec3) : (a * v).x = a * v.x := rfl

@[simp]
theorem Vec3.smul_y (a : ℚ) (v : Vec3) : (a * v).y = a * v.y := rfl

@[simp]
theorem Vec3.smul_z (a : ℚ) (v : Vec3) : (a * v).z = a * v.z := rfl

/-- State of `class LorenzSolver`: parameters `sigma_`, `rho_`, `beta_`,
current position `state_`, trajectory buffer `trajectory_`. -/
structure LorenzSolver where
  sigma_ : ℚ
  rho_ : ℚ
  beta_ : ℚ
  state_ : Vec3
  trajectory_ : List Vec3
deriving DecidableEq, Repr

/-- Constructor `LorenzSolver(sigma, rho, beta)`: member initializer for the
parameters, `state_` default-initialized to (0, 1, 0), then
`trajectory_.push_back(state_)`.  (The `reserve(50000)` call only affects
capacity, not contents.) -/
def LorenzSolver.init (sigma rho beta : ℚ) : LorenzSolver :=
  { sigma_ := sigma, rho_ := rho, beta_ := beta,
    state_ := ⟨0, 1, 0⟩, trajectory_ := [⟨0, 1, 0⟩] }

/-- Method `setParameters(sigma, rho, beta)`. -/
def LorenzSolver.setParameters (s : LorenzSolver) (sigma rho beta : ℚ) : LorenzSolver :=
  { s with sigma_ := sigma, rho_ := rho, beta_ := beta }

/-- Method `setState(x, y, z)`: sets `state_`, clears the trajectory and
pushes the new state. -/
def LorenzSolver.setState (s : LorenzSolver) (x y z : ℚ) : LorenzSolver :=
  { s with state_ := ⟨x, y, z⟩, trajectory_ := [⟨x, y, z⟩] }

/-- Private method `derivatives(state)`: the Lorenz vector field evaluated
with the solver's current parameters. -/
def LorenzSolver.derivatives (s : LorenzSolver) (state : Vec3) : Vec3 :=
  ⟨s.sigma_ * (state.y - state.x),
   state.x * (s.rho_ - state.z) - state.y,
   state.x * state.y - s.beta_ * state.z⟩

/-- Method `step(dt)`: one RK4 update of `state_` followed by
`trajectory_.push_back(state_)`. -/
def LorenzSolver.step (s : LorenzSolver) (dt : ℚ) : LorenzSolver :=
  let k1 := s.derivatives s.state_
  let k2 := s.derivatives (s.state_ + (0.5 * dt) * k1)
  let k3 := s.derivatives (s.state_ + (0.5 * dt) * k2)
  let k4 := s.derivatives (s.state_ + dt * k3)
  let newState := s.state_ + (dt / 6) * (k1 + (2 : ℚ) * k2 + (2 : ℚ) * k3 + k4)
  { s with state_ := newState, trajectory_ := s.trajectory_ ++ [newState] }

/-- Method `getTrajectory()`. -/
def LorenzSolver.getTrajectory (s : LorenzSolver) : List Vec3 :=
  s.trajectory_

/-- Method `getState()`. -/
def LorenzSolver.getState (s : LorenzSolver) : Vec3 :=
  s.state_

/-- Method `clearOldest(keep)`: if the trajectory is longer than `keep`,
erase the first `size - keep` elements. -/
def LorenzSolver.clearOldest (s : LorenzSolver) (keep : ℕ) : LorenzSolver :=
  if s.trajectory_.length > keep then
    { s with trajectory_ := s.trajectory_.drop (s.trajectory_.length - keep) }
  else
    s

/-- Method `reset()`: clears the trajectory, sets `state_` to (0, 1, 0) and
pushes it. -/
def LorenzSolver.reset (s : LorenzSolver) : LorenzSolver :=
  { s with state_ := ⟨0, 1, 0⟩, trajectory_ := [⟨0, 1, 0⟩] }

/-- Iterated stepping: `stepN s dt n` is `n` successive calls `step(dt)`. -/
def LorenzSolver.stepN (s : LorenzSolver) (dt : ℚ) : ℕ → LorenzSolver
  | 0 => s
  | n + 1 => (s.stepN dt n).step dt

/-- Spec-side definition of the Lorenz vector field, transcribed from the
spec text: f(s) = (σ(s.y − s.x), s.x(ρ − s.z) − s.y, s.x·s.y − β·s.z). -/
def lorenzFieldSpec (sigma rho beta : ℚ) (s : Vec3) : Vec3 :=
  ⟨sigma * (s.y - s.x), s.x * (rho - s.z) - s.y, s.x * s.y - beta * s.z⟩

/-- Spec-side definition of one classical RK4 iteration, transcribed from the
spec text: k1 = f(p), k2 = f(p + dt/2·k1), k3 = f(p + dt/2·k2),
k4 = f(p + dt·k3), p' = p + dt/6·(k1 + 2k2 + 2k3 + k4), all four stages
with the same parameters. -/
def rk4StepSpec (sigma rho beta dt : ℚ) (pos : Vec3) : Vec3 :=
  let f := lorenzFieldSpec sigma rho beta
  let k1 := f pos
  let k2 := f (pos + (dt / 2) * k1)
  let k3 := f (pos + (dt / 2) * k2)
  let k4 := f (pos + dt * k3)
  pos + (dt / 6) * (k1 + (2 : ℚ) * k2 + (2 : ℚ) * k3 + k4)

/-- C1: for every solver state and step size, `step(dt)` updates the position
by exactly one classical RK4 iteration of the Lorenz field (stages k1..k4 as
in the spec, all evaluated with the solver's current parameters), and appends
that new position to the trajectory. -/
theorem step_is_rk4 (s : LorenzSolver) (dt : ℚ) :
    (s.step dt).getState = rk4StepSpec s.sigma_ s.rho_ s.beta_ dt s.state_ ∧
    (s.step dt).getTrajectory =
      s.getTrajectory ++ [rk4StepSpec s.sigma_ s.rho_ s.beta_ dt s.state_] := by
  have h : (s.step dt).getState = rk4StepSpec s.sigma_ s.rho_ s.beta_ dt s.state_ := by
    have hdt : (0.5 : ℚ) * dt = dt / 2 := by ring
    simp only [LorenzSolver.step, LorenzSolver.getState, rk4StepSpec, hdt]
    rfl
  refine ⟨h, ?_⟩
  have ht : (s.step dt).getTrajectory = s.getTrajectory ++ [(s.step dt).getState] := rfl
  rw [ht, h]

/-- C2: `clearOldest(keep)` always leaves exactly min(keep, previous length)
elements, namely the most recent ones in their original order (the suffix
obtained by dropping the first `length - keep` elements; for
keep ≥ length nothing is dropped, so the call is a no-op). -/
theorem clearOldest_keeps_recent (s : LorenzSolver) (keep : ℕ) :
    (s.clearOldest keep).getTrajectory.length = min keep s.getTrajectory.length ∧
    (s.clearOldest keep).getTrajectory =
      s.getTrajectory.drop (s.getTrajectory.length - keep) := by
  unfold LorenzSolver.clearOldest LorenzSolver.getTrajectory
  split
  · rename_i hgt
    refine ⟨?_, rfl⟩
    simp only [List.length_drop]
    omega
  · rename_i hle
    have h0 : s.trajectory_.length - keep = 0 := by omega
    rw [h0, List.drop_zero]
    exact ⟨by omega, rfl⟩

/-- Helper: the trajectory of `stepN` grows by exactly one element per step. -/
theorem stepN_trajectory_length (s : LorenzSolver) (dt : ℚ) (n : ℕ) :
    (s.stepN dt n).getTrajectory.length = s.getTrajectory.length + n := by
  induction n with
  | zero => rfl
  | succ m ih =>
    show ((s.stepN dt m).step dt).getTrajectory.length = _
    have h : ((s.stepN dt m).step dt).getTrajectory =
        (s.stepN dt m).getTrajectory ++ [((s.stepN dt m).step dt).getState] := rfl
    rw [h, List.length_append, ih]
    simp [Nat.add_assoc]

/-- C6: iterating `step(dt)` N times grows the trajectory by exactly N
elements, the previous trajectory staying in place as an unchanged initial
segment; a single `step` appends exactly the new position. -/
theorem stepN_appends (s : LorenzSolver) (dt : ℚ) (N : ℕ) :
    (s.stepN dt N).getTrajectory.length = s.getTrajectory.length + N ∧
    (s.stepN dt N).getTrajectory.take s.getTrajectory.length = s.getTrajectory ∧
    (s.step dt).getTrajectory = s.getTrajectory ++ [(s.step dt).getState] := by
  refine ⟨stepN_trajectory_length s dt N, ?_, rfl⟩
  induction N with
  | zero => simp [LorenzSolver.stepN, LorenzSolver.getTrajectory]
  | succ n ih =>
    show (((s.stepN dt n).step dt).getTrajectory).take s.getTrajectory.length = _
    have hstep : ((s.stepN dt n).step dt).getTrajectory =
        (s.stepN dt n).getTrajectory ++ [((s.stepN dt n).step dt).getState] := rfl
    have hlen : s.getTrajectory.length ≤ (s.stepN dt n).getTrajectory.length := by
      rw [stepN_trajectory_length s dt n]
      omega
    rw [hstep, List.take_append_of_le_length hlen, ih]

/-- C7: `reset()` always returns the position to the canonical seed (0, 1, 0)
and the trajectory to the singleton containing it, leaving the parameters
sigma, rho, beta unchanged. -/
theorem reset_restores_seed (s : LorenzSolver) :
    s.reset.getState = ⟨0, 1, 0⟩ ∧
    s.reset.getTrajectory = [⟨0, 1, 0⟩] ∧
    s.reset.sigma_ = s.sigma_ ∧ s.reset.rho_ = s.rho_ ∧ s.reset.beta_ = s.beta_ :=
  ⟨rfl, rfl, rfl, rfl, rfl⟩

/-- C9: `clearOldest(keep)` never touches the parameters or the current
position; it only modifies the trajectory buffer. -/
theorem clearOldest_preserves_params_state (s : LorenzSolver) (keep : ℕ) :
    (s.clearOldest keep).sigma_ = s.sigma_ ∧
    (s.clearOldest keep).rho_ = s.rho_ ∧
    (s.clearOldest keep).beta_ = s.beta_ ∧
    (s.clearOldest keep).getState = s.getState := by
  unfold LorenzSolver.clearOldest
  split <;> exact ⟨rfl, rfl, rfl, rfl⟩

/-- Abstract numeric primitives used by the camera: the constant pi and the
functions cos, sin, sqrt.  The C++ code uses the float approximations from
libm / glm; every camera theorem below holds for every choice of these
primitives, so nothing depends on their values. -/
structure RealFuns where
  pi : ℚ
  cos : ℚ → ℚ
  sin : ℚ → ℚ
  sqrt : ℚ → ℚ

/-- Degree-to-radian conversion `glm::radians`. -/
def radians (F : RealFuns) (deg : ℚ) : ℚ :=
  deg * F.pi / 180

/-- Componentwise `glm::cross`. -/
def cross (a b : Vec3) : Vec3 :=
  ⟨a.y * b.z - a.z * b.y, a.z * b.x - a.x * b.z, a.x * b.y - a.y * b.x⟩

/-- Vector normalization `glm::normalize`: division by the euclidean length
(computed through the abstract square root). -/
def normalizeV (F : RealFuns) (v : Vec3) : Vec3 :=
  let len := F.sqrt (v.x * v.x + v.y * v.y + v.z * v.z)
  ⟨v.x / len, v.y / len, v.z / len⟩

/-- Generic clamp, mirroring `std::clamp(v, lo, hi)`. -/
def clampQ (v lo hi : ℚ) : ℚ :=
  if v < lo then lo else if hi < v then hi else v

/-- State of `class Camera`: public pose and settings fields plus the
private constructor-time defaults kept for `reset()`. -/
structure Camera where
  distance : ℚ
  yaw : ℚ
  pitch : ℚ
  target : Vec3
  fov : ℚ
  near_plane : ℚ
  far_plane : ℚ
  default_distance : ℚ
  default_yaw : ℚ
  default_pitch : ℚ
  default_target : Vec3
deriving DecidableEq, Repr

/-- Constructor `Camera(dist, yaw_deg, pitch_deg)` with its initializer
list: target (0, 0, 25), fov 45, near 0.1, far 1000, and the default
snapshot of dist / yaw / pitch / target. -/
def Camera.init (dist yaw_deg pitch_deg : ℚ) : Camera :=
  { distance := dist, yaw := yaw_deg, pitch := pitch_deg,
    target := ⟨0, 0, 25⟩, fov := 45, near_plane := 0.1, far_plane := 1000,
    default_distance := dist, default_yaw := yaw_deg,
    default_pitch := pitch_deg, default_target := ⟨0, 0, 25⟩ }

/-- Method `getPosition()`: spherical-to-cartesian offset from the target. -/
def Camera.getPosition (F : RealFuns) (c : Camera) : Vec3 :=
  let yaw_rad := radians F c.yaw
  let pitch_rad := radians F c.pitch
  c.target + ⟨c.distance * F.cos pitch_rad * F.cos yaw_rad,
              c.distance * F.cos pitch_rad * F.sin yaw_rad,
              c.distance * F.sin pitch_rad⟩

/-- Method `rotate(delta_yaw, delta_pitch)`: adds the deltas, clamps pitch to
[-89, 89], then applies the two yaw-wrapping conditionals in order
(subtract 360 if above 360, then add 360 if below 0). -/
def Camera.rotate (c : Camera) (delta_yaw delta_pitch : ℚ) : Camera :=
  let yaw1 := c.yaw + delta_yaw
  let pitch1 := clampQ (c.pitch + delta_pitch) (-89) 89
  let yaw2 := if yaw1 > 360 then yaw1 - 360 else yaw1
  let yaw3 := if yaw2 < 0 then yaw2 + 360 else yaw2
  { c with yaw := yaw3, pitch := pitch1 }

/-- Method `zoom(delta)`: adds the delta to distance and clamps to [5, 200]. -/
def Camera.zoom (c : Camera) (delta : ℚ) : Camera :=
  { c with distance := clampQ (c.distance + delta) 5 200 }

/-- Method `pan(delta_x, delta_y)`: translates the target along the
camera-relative right/up axes, scaled by distance * 0.01. -/
def Camera.pan (F : RealFuns) (c : Camera) (delta_x delta_y : ℚ) : Camera :=
  let forward := normalizeV F (c.target - c.getPosition F)
  let right := normalizeV F (cross forward ⟨0, 0, 1⟩)
  let up := cross right forward
  let pan_speed := c.distance * (1 / 100)
  { c with target := c.target + (delta_x * pan_speed) * right
                              + (delta_y * pan_speed) * up }

/-- Method `reset()` of the camera: restores distance, yaw, pitch and target
from the stored defaults. -/
def Camera.reset (c : Camera) : Camera :=
  { c with distance := c.default_distance, yaw := c.default_yaw,
           pitch := c.default_pitch, target := c.default_target }

/-- One user-interaction call on the camera. -/
inductive CamOp where
  | rotate (delta_yaw delta_pitch : ℚ)
  | zoom (delta : ℚ)
  | pan (delta_x delta_y : ℚ)
deriving DecidableEq, Repr

/-- Interpretation of a single camera call. -/
def applyCamOp (F : RealFuns) (c : Camera) : CamOp → Camera
  | CamOp.rotate dy dp => c.rotate dy dp
  | CamOp.zoom d => c.zoom d
  | CamOp.pan dx dy => c.pan F dx dy

/-- Interpretation of a sequence of camera calls, oldest first. -/
def applyCamOps (F : RealFuns) (c : Camera) (ops : List CamOp) : Camera :=
  ops.foldl (applyCamOp F) c

/-- Trivial instantiation of the abstract numeric primitives, used only to
state closed concrete facts that do not involve `pan` or `getPosition`. -/
def zeroFuns : RealFuns :=
  ⟨0, fun _ => 0, fun _ => 0, fun _ => 0⟩

/-- Camera pose ranges exactly as the claim states them: pitch in [-89, 89],
yaw in the half-open interval [0, 360), distance in [5, 200]. -/
def camAnglesInvStrict (c : Camera) : Prop :=
  -89 ≤ c.pitch ∧ c.pitch ≤ 89 ∧ 0 ≤ c.yaw ∧ c.yaw < 360 ∧
    5 ≤ c.distance ∧ c.distance ≤ 200

/-- Camera pose ranges the code actually maintains: pitch in [-89, 89],
yaw in the closed interval [0, 360], distance in [5, 200]. -/
def camPoseInv (c : Camera) : Prop :=
  -89 ≤ c.pitch ∧ c.pitch ≤ 89 ∧ 0 ≤ c.yaw ∧ c.yaw ≤ 360 ∧
    5 ≤ c.distance ∧ c.distance ≤ 200

/-- Bounded yaw delta: the single-period wrap in `rotate` can only cope with
one extra turn, so the amended invariant restricts each rotate call to a
yaw delta of magnitude at most 360 (zoom and pan are unrestricted). -/
def smallYawDelta : CamOp → Prop
  | CamOp.rotate dy _ => -360 ≤ dy ∧ dy ≤ 360
  | CamOp.zoom _ => True
  | CamOp.pan _ _ => True

/-- C4 counterexample: a single rotate call with delta_yaw = 1000 on the
default-constructed camera leaves yaw at 685, outside [0, 360): the wrap in
the code subtracts 360 at most once, so the claimed invariant fails for
large deltas. -/
theorem camera_yaw_wrap_fails :
    ¬ camAnglesInvStrict
        (applyCamOps zeroFuns (Camera.init 60 45 20) [CamOp.rotate 1000 0]) := by
  norm_num [applyCamOps, applyCamOp, Camera.rotate, Camera.init, clampQ,
    camAnglesInvStrict, List.foldl]

/-- Helper: `std::clamp` lands in the interval whenever lo ≤ hi. -/
theorem clampQ_mem (v lo hi : ℚ) (h : lo ≤ hi) :
    lo ≤ clampQ v lo hi ∧ clampQ v lo hi ≤ hi := by
  unfold clampQ
  split_ifs <;> constructor <;> linarith

/-- Helper: one camera call preserves the pose ranges, provided a rotate
call changes yaw by at most one full turn. -/
theorem applyCamOp_pose (F : RealFuns) (c : Camera) (op : CamOp)
    (hc : camPoseInv c) (hop : smallYawDelta op) :
    camPoseInv (applyCamOp F c op) := by
  obtain ⟨hp1, hp2, hy1, hy2, hd1, hd2⟩ := hc
  cases op with
  | rotate dy dp =>
    obtain ⟨h1, h2⟩ := hop
    have hcl := clampQ_mem (c.pitch + dp) (-89) 89 (by norm_num)
    show camPoseInv (c.rotate dy dp)
    unfold Camera.rotate camPoseInv
    dsimp only
    refine ⟨hcl.1, hcl.2, ?_, ?_, hd1, hd2⟩ <;> split_ifs <;> linarith
  | zoom d =>
    have hcl := clampQ_mem (c.distance + d) 5 200 (by norm_num)
    show camPoseInv (c.zoom d)
    unfold Camera.zoom camPoseInv
    dsimp only
    exact ⟨hp1, hp2, hy1, hy2, hcl.1, hcl.2⟩
  | pan dx dy =>
    show camPoseInv (c.pan F dx dy)
    unfold Camera.pan camPoseInv
    dsimp only
    exact ⟨hp1, hp2, hy1, hy2, hd1, hd2⟩

/-- C4 amended: starting from a camera whose pose is in range, any sequence
of camera calls in which each rotate changes yaw by at most 360 in magnitude
keeps pitch in [-89, 89], yaw in the closed interval [0, 360], and distance
in [5, 200]. -/
theorem camera_pose_invariant (F : RealFuns) (c : Camera) (ops : List CamOp)
    (hc : camPoseInv c) (hops : ∀ op ∈ ops, smallYawDelta op) :
    camPoseInv (applyCamOps F c ops) := by
  induction ops generalizing c with
  | nil => exact hc
  | cons op rest ih =>
    show camPoseInv (applyCamOps F (applyCamOp F c op) rest)
    exact ih (applyCamOp F c op)
      (applyCamOp_pose F c op hc (hops op (by simp)))
      (fun o ho => hops o (by simp [ho]))

/-- Concrete application of the amended camera invariant: the default
camera (60, 45, 20) after a bounded rotate and an out-of-range zoom still
has its pose in range. -/
theorem camera_pose_invariant_witness :
    camPoseInv (Camera.init 60 45 20) ∧
    (∀ op ∈ ([CamOp.rotate 350 100, CamOp.zoom (-1000)] : List CamOp),
      smallYawDelta op) ∧
    camPoseInv (applyCamOps zeroFuns (Camera.init 60 45 20)
      [CamOp.rotate 350 100, CamOp.zoom (-1000)]) := by
  have h1 : camPoseInv (Camera.init 60 45 20) := by
    norm_num [camPoseInv, Camera.init]
  have h2 : ∀ op ∈ ([CamOp.rotate 350 100, CamOp.zoom (-1000)] : List CamOp),
      smallYawDelta op := by
    intro op hop
    fin_cases hop <;> norm_num [smallYawDelta]
  exact ⟨h1, h2, camera_pose_invariant zeroFuns (Camera.init 60 45 20)
    [CamOp.rotate 350 100, CamOp.zoom (-1000)] h1 h2⟩

/-- Helper: no camera call touches fov, near/far planes, or the stored
constructor-time defaults. -/
theorem applyCamOp_preserves_config (F : RealFuns) (c : Camera) (op : CamOp) :
    (applyCamOp F c op).fov = c.fov ∧
    (applyCamOp F c op).near_plane = c.near_plane ∧
    (applyCamOp F c op).far_plane = c.far_plane ∧
    (applyCamOp F c op).default_distance = c.default_distance ∧
    (applyCamOp F c op).default_yaw = c.default_yaw ∧
    (applyCamOp F c op).default_pitch = c.default_pitch ∧
    (applyCamOp F c op).default_target = c.default_target := by
  cases op <;> exact ⟨rfl, rfl, rfl, rfl, rfl, rfl, rfl⟩

/-- Helper: the previous fact extended to any sequence of camera calls. -/
theorem applyCamOps_preserves_config (F : RealFuns) (c : Camera) (ops : List CamOp) :
    (applyCamOps F c ops).fov = c.fov ∧
    (applyCamOps F c ops).near_plane = c.near_plane ∧
    (applyCamOps F c ops).far_plane = c.far_plane ∧
    (applyCamOps F c ops).default_distance = c.default_distance ∧
    (applyCamOps F c ops).default_yaw = c.default_yaw ∧
    (applyCamOps F c ops).default_pitch = c.default_pitch ∧
    (applyCamOps F c ops).default_target = c.default_target := by
  induction ops generalizing c with
  | nil => exact ⟨rfl, rfl, rfl, rfl, rfl, rfl, rfl⟩
  | cons op rest ih =>
    have h1 := applyCamOp_preserves_config F c op
    have h2 := ih (applyCamOp F c op)
    exact ⟨h2.1.trans h1.1, h2.2.1.trans h1.2.1, h2.2.2.1.trans h1.2.2.1,
      h2.2.2.2.1.trans h1.2.2.2.1, h2.2.2.2.2.1.trans h1.2.2.2.2.1,
      h2.2.2.2.2.2.1.trans h1.2.2.2.2.2.1, h2.2.2.2.2.2.2.trans h1.2.2.2.2.2.2⟩

/-- C8: after any sequence of rotate / zoom / pan calls on a constructed
camera, `reset()` restores distance, yaw, pitch and target exactly to their
constructor-time default values, and leaves fov, near_plane and far_plane
unchanged. -/
theorem camera_reset_restores_defaults (F : RealFuns)
    (dist yaw_deg pitch_deg : ℚ) (ops : List CamOp) :
    (Camera.reset (applyCamOps F (Camera.init dist yaw_deg pitch_deg) ops)).distance = dist ∧
    (Camera.reset (applyCamOps F (Camera.init dist yaw_deg pitch_deg) ops)).yaw = yaw_deg ∧
    (Camera.reset (applyCamOps F (Camera.init dist yaw_deg pitch_deg) ops)).pitch = pitch_deg ∧
    (Camera.reset (applyCamOps F (Camera.init dist yaw_deg pitch_deg) ops)).target = ⟨0, 0, 25⟩ ∧
    (Camera.reset (applyCamOps F (Camera.init dist yaw_deg pitch_deg) ops)).fov =
      (applyCamOps F (Camera.init dist yaw_deg pitch_deg) ops).fov ∧
    (Camera.reset (applyCamOps F (Camera.init dist yaw_deg pitch_deg) ops)).near_plane =
      (applyCamOps F (Camera.init dist yaw_deg pitch_deg) ops).near_plane ∧
    (Camera.reset (applyCamOps F (Camera.init dist yaw_deg pitch_deg) ops)).far_plane =
      (applyCamOps F (Camera.init dist yaw_deg pitch_deg) ops).far_plane := by
  have h := applyCamOps_preserves_config F (Camera.init dist yaw_deg pitch_deg) ops
  refine ⟨?_, ?_, ?_, ?_, rfl, rfl, rfl⟩
  · show (applyCamOps F (Camera.init dist yaw_deg pitch_deg) ops).default_distance = dist
    rw [h.2.2.2.1]
    rfl
  · show (applyCamOps F (Camera.init dist yaw_deg pitch_deg) ops).default_yaw = yaw_deg
    rw [h.2.2.2.2.1]
    rfl
  · show (applyCamOps F (Camera.init dist yaw_deg pitch_deg) ops).default_pitch = pitch_deg
    rw [h.2.2.2.2.2.1]
    rfl
  · show (applyCamOps F (Camera.init dist yaw_deg pitch_deg) ops).default_target = ⟨0, 0, 25⟩
    rw [h.2.2.2.2.2.2]
    rfl

/-- C10: `pan(delta_x, delta_y)` modifies only the target field: distance,
yaw, pitch, fov, near_plane, far_plane (and the stored defaults) are all
unchanged, for every choice of the numeric primitives. -/
theorem pan_only_moves_target (F : RealFuns) (c : Camera) (dx dy : ℚ) :
    (c.pan F dx dy).distance = c.distance ∧
    (c.pan F dx dy).yaw = c.yaw ∧
    (c.pan F dx dy).pitch = c.pitch ∧
    (c.pan F dx dy).fov = c.fov ∧
    (c.pan F dx dy).near_plane = c.near_plane ∧
    (c.pan F dx dy).far_plane = c.far_plane ∧
    (c.pan F dx dy).default_distance = c.default_distance ∧
    (c.pan F dx dy).default_yaw = c.default_yaw ∧
    (c.pan F dx dy).default_pitch = c.default_pitch ∧
    (c.pan F dx dy).default_target = c.default_target :=
  ⟨rfl, rfl, rfl, rfl, rfl, rfl, rfl, rfl, rfl, rfl⟩

/-- One external call on the solver. -/
inductive SolverOp where
  | setParameters (sigma rho beta : ℚ)
  | setState (x y z : ℚ)
  | step (dt : ℚ)
  | clearOldest (keep : ℕ)
  | reset
deriving DecidableEq, Repr

/-- Interpretation of a single solver call. -/
def applySolverOp (s : LorenzSolver) : SolverOp → LorenzSolver
  | SolverOp.setParameters sigma rho beta => s.setParameters sigma rho beta
  | SolverOp.setState x y z => s.setState x y z
  | SolverOp.step dt => s.step dt
  | SolverOp.clearOldest keep => s.clearOldest keep
  | SolverOp.reset => s.reset

/-- Interpretation of a sequence of solver calls, oldest first. -/
def applySolverOps (s : LorenzSolver) (ops : List SolverOp) : LorenzSolver :=
  ops.foldl applySolverOp s

/-- The invariant of the claim: the current position is the last element of
the recorded trajectory. -/
def stateInTraj (s : LorenzSolver) : Prop :=
  s.getTrajectory.getLast? = some s.getState

/-- Bounded eviction: a `clearOldest` call keeps at least one element
(other calls are unrestricted). -/
def keepPositive : SolverOp → Prop
  | SolverOp.clearOldest keep => 1 ≤ keep
  | _ => True

/-- C3 counterexample: immediately after construction, `clearOldest(0)`
erases the whole trajectory, so the current position is no longer a member
(let alone the last element) of the trajectory. -/
theorem state_last_fails_on_clearOldest_zero :
    ¬ stateInTraj
        (applySolverOps (LorenzSolver.init 10 28 (8 / 3)) [SolverOp.clearOldest 0]) := by
  simp [stateInTraj, applySolverOps, applySolverOp, LorenzSolver.clearOldest,
    LorenzSolver.init, LorenzSolver.getTrajectory, LorenzSolver.getState, List.foldl]

/-- Helper: a suffix obtained by dropping fewer than all the elements has
the same last element. -/
theorem getLast?_drop_of_lt (l : List Vec3) (n : ℕ) (h : n < l.length) :
    (l.drop n).getLast? = l.getLast? := by
  have hne : l.drop n ≠ [] := by
    intro hnil
    have := List.length_drop n l
    rw [hnil] at this
    simp at this
    omega
  obtain ⟨a, ha⟩ := Option.isSome_iff_exists.mp (by rwa [List.getLast?_isSome])
  conv_rhs => rw [← List.take_append_drop n l, List.getLast?_append, ha]
  rw [ha]
  rfl

/-- Helper: each solver call preserves the position-is-last invariant, as
long as a `clearOldest` call keeps at least one element. -/
theorem applySolverOp_stateInTraj (s : LorenzSolver) (op : SolverOp)
    (hs : stateInTraj s) (hop : keepPositive op) :
    stateInTraj (applySolverOp s op) := by
  cases op with
  | setParameters sigma rho beta => exact hs
  | setState x y z => rfl
  | step dt =>
    show ((s.step dt).getTrajectory).getLast? = _
    have h : (s.step dt).getTrajectory = s.getTrajectory ++ [(s.step dt).getState] := rfl
    rw [h, List.getLast?_concat]
    rfl
  | clearOldest keep =>
    show stateInTraj (s.clearOldest keep)
    unfold LorenzSolver.clearOldest
    split
    · rename_i hgt
      show (s.trajectory_.drop (s.trajectory_.length - keep)).getLast? = some s.state_
      rw [getLast?_drop_of_lt s.trajectory_ (s.trajectory_.length - keep) (by
        have hk : 1 ≤ keep := hop
        omega)]
      exact hs
    · exact hs
  | reset => rfl

/-- C3 amended: starting from a constructed solver, the current position is
the last element of the trajectory after every sequence of solver calls in
which each `clearOldest` keeps at least one element.  (With keep = 0,
`clearOldest` empties the trajectory and the invariant breaks.) -/
theorem state_is_last_of_trajectory (sigma rho beta : ℚ) (ops : List SolverOp)
    (hops : ∀ op ∈ ops, keepPositive op) :
    stateInTraj (applySolverOps (LorenzSolver.init sigma rho beta) ops) := by
  have hbase : stateInTraj (LorenzSolver.init sigma rho beta) := rfl
  rw [show applySolverOps (LorenzSolver.init sigma rho beta) ops =
      List.foldl applySolverOp (LorenzSolver.init sigma rho beta) ops from rfl]
  induction ops generalizing sigma rho beta with
  | nil => exact hbase
  | cons op rest ih =>
    have h1 : stateInTraj (applySolverOp (LorenzSolver.init sigma rho beta) op) :=
      applySolverOp_stateInTraj _ op hbase (hops op (by simp))
    show stateInTraj (List.foldl applySolverOp
      (applySolverOp (LorenzSolver.init sigma rho beta) op) rest)
    clear ih
    generalize applySolverOp (LorenzSolver.init sigma rho beta) op = s0 at h1
    have hrest : ∀ op ∈ rest, keepPositive op := fun o ho => hops o (by simp [ho])
    clear hops hbase
    induction rest generalizing s0 with
    | nil => exact h1
    | cons op2 rest2 ih2 =>
      exact ih2 (applySolverOp s0 op2)
        (applySolverOp_stateInTraj s0 op2 h1 (hrest op2 (by simp)))
        (fun o ho => hrest o (by simp [ho]))

/-- Concrete application of the position-is-last invariant: one step with
dt = 1/100 followed by clearOldest(1). -/
theorem state_is_last_witness :
    (∀ op ∈ ([SolverOp.step (1 / 100), SolverOp.clearOldest 1] : List SolverOp),
      keepPositive op) ∧
    stateInTraj (applySolverOps (LorenzSolver.init 10 28 (8 / 3))
      [SolverOp.step (1 / 100), SolverOp.clearOldest 1]) := by
  have h : ∀ op ∈ ([SolverOp.step (1 / 100), SolverOp.clearOldest 1] : List SolverOp),
      keepPositive op := by
    intro op hop
    fin_cases hop <;> simp [keepPositive]
  exact ⟨h, state_is_last_of_trajectory 10 28 (8 / 3)
    [SolverOp.step (1 / 100), SolverOp.clearOldest 1] h⟩

/-- Helper: the length left by `clearOldest` is min(keep, previous length). -/
theorem clearOldest_length (s : LorenzSolver) (keep : ℕ) :
    (s.clearOldest keep).getTrajectory.length = min keep s.getTrajectory.length := by
  unfold LorenzSolver.clearOldest
  split
  · rename_i hgt
    show (s.trajectory_.drop (s.trajectory_.length - keep)).length
      = min keep s.trajectory_.length
    simp only [List.length_drop]
    omega
  · rename_i hle
    show s.trajectory_.length = min keep s.trajectory_.length
    omega

/-- One iteration of the body of the simulation update loop in main():
`solver.step(dt)` followed by the size check that calls
`clearOldest(max_points)` when the trajectory exceeds max_points. -/
def updateIter (dt : ℚ) (max_points : ℕ) (s : LorenzSolver) : LorenzSolver :=
  let s1 := s.step dt
  if s1.getTrajectory.length > max_points then s1.clearOldest max_points else s1

/-- The for-loop of the update phase: `steps_per_frame` iterations. -/
def updateLoop (dt : ℚ) (max_points : ℕ) : ℕ → LorenzSolver → LorenzSolver
  | 0, s => s
  | n + 1, s => updateLoop dt max_points n (updateIter dt max_points s)

/-- The update phase of one frame of the render loop: guarded by the
`running` flag. -/
def frameUpdate (running : Bool) (steps_per_frame : ℕ) (dt : ℚ)
    (max_points : ℕ) (s : LorenzSolver) : LorenzSolver :=
  if running then updateLoop dt max_points steps_per_frame s else s

/-- Helper: each loop iteration leaves trajectory length at most max_points,
whatever the incoming length. -/
theorem updateIter_length_le (dt : ℚ) (maxp : ℕ) (s : LorenzSolver) :
    (updateIter dt maxp s).getTrajectory.length ≤ maxp := by
  unfold updateIter
  dsimp only
  split
  · rename_i hgt
    rw [clearOldest_length]
    omega
  · rename_i hle
    omega

/-- Helper: the loop preserves the length bound. -/
theorem updateLoop_length_le (dt : ℚ) (maxp : ℕ) (n : ℕ) (s : LorenzSolver)
    (h : s.getTrajectory.length ≤ maxp) :
    (updateLoop dt maxp n s).getTrajectory.length ≤ maxp := by
  induction n generalizing s with
  | zero => exact h
  | succ m ih => exact ih (updateIter dt maxp s) (updateIter_length_le dt maxp s)

/-- C5: if the trajectory respects the bound when a frame begins, it still
respects it after the frame's update phase (steps_per_frame steps, each
followed by the conditional eviction), whether or not the simulation is
running. -/
theorem frame_keeps_length_bounded (running : Bool) (steps_per_frame : ℕ)
    (dt : ℚ) (max_points : ℕ) (s : LorenzSolver)
    (h : s.getTrajectory.length ≤ max_points) :
    (frameUpdate running steps_per_frame dt max_points s).getTrajectory.length
      ≤ max_points := by
  unfold frameUpdate
  split
  · exact updateLoop_length_le dt max_points steps_per_frame s h
  · exact h

/-- Concrete application of the frame bound: five running steps against a
cap of three points, starting from a fresh solver. -/
theorem frame_keeps_length_bounded_witness :
    (LorenzSolver.init 10 28 (8 / 3)).getTrajectory.length ≤ 3 ∧
    (frameUpdate true 5 (1 / 100) 3
      (LorenzSolver.init 10 28 (8 / 3))).getTrajectory.length ≤ 3 := by
  have h : (LorenzSolver.init 10 28 (8 / 3)).getTrajectory.length ≤ 3 := by
    simp [LorenzSolver.init, LorenzSolver.getTrajectory]
  exact ⟨h, frame_keeps_length_bounded true 5 (1 / 100) 3
    (LorenzSolver.init 10 28 (8 / 3)) h⟩
